import Mathlib

/-!
A shallow embedding of the core redaction engine of the `entrophier`
repository (`src/entrophier/core.py`), together with proofs about it.

Modelling conventions:

* Python strings are modelled as `List Char`.  The character classes used by
  the code (`[a-zA-Z0-9]`, `str.isdigit`, `str.isalpha`, `str.lower`, the
  vowel sets) are modelled on the ASCII fragment that the code's regexes
  (`[a-zA-Z0-9]`, `[0-9a-fA-F]`, `[A-Za-z0-9+/]`) operate on.
* Python's `re.match(p, s)` with a pattern of the shape `^...$` matches the
  whole string, optionally ignoring one trailing newline (the semantics of
  `$`); `stripNL` models that.
* Python floats are modelled by exact rational arithmetic.  The single
  floating comparison `adjusted_entropy >= entropy_threshold` is embedded as
  the exact predicate `H(s) >= t + bonus - adjustment`, decided without any
  real-number computation: for a non-empty string of length `n` with
  character multiplicities `c_i` (case-folded), the Shannon entropy is
  `H = log2 n - (1/n) * sum c_i * log2 c_i = (1/n) * log2 (n^n / prod c_i^c_i)`,
  so for a rational bound `p/q` (`q > 0`),
  `H >= p/q  <->  (n^n)^q >= (prod c_i^c_i)^q * 2^(p*n)`,
  a comparison of natural numbers (`2^(p*n)` moves to the other side when
  `p < 0`).  This is `entropyGeP` below.
* The configuration loaded from YAML (word lists, affix lists, and the
  regex-based pattern families) is modelled by a `Config` record; each
  configured regex is abstracted as the Boolean match / span-finder /
  substitution function it denotes.
-/

set_option exponentiation.threshold 1000000

set_option maxRecDepth 8000

namespace Entrophier

/-! ### Character classes (ASCII, as used by the code's regexes) -/

def isDigitA (c : Char) : Bool := decide ('0' ≤ c) && decide (c ≤ '9')

def isLowerA (c : Char) : Bool := decide ('a' ≤ c) && decide (c ≤ 'z')

def isUpperA (c : Char) : Bool := decide ('A' ≤ c) && decide (c ≤ 'Z')

def isAlphaA (c : Char) : Bool := isLowerA c || isUpperA c

def isAlnumA (c : Char) : Bool := isAlphaA c || isDigitA c

/-- The class `[0-9a-fA-F]`. -/
def isHexA (c : Char) : Bool :=
  isDigitA c || (decide ('a' ≤ c) && decide (c ≤ 'f')) || (decide ('A' ≤ c) && decide (c ≤ 'F'))

/-- The class `[A-Za-z0-9+/]` of the base64 rule. -/
def isB64A (c : Char) : Bool := isAlnumA c || c == '+' || c == '/'

/-- ASCII lower-casing, modelling `str.lower` on the characters involved. -/
def toLowerA (c : Char) : Char := if isUpperA c then Char.ofNat (c.toNat + 32) else c

def isVowelLower (c : Char) : Bool :=
  c == 'a' || c == 'e' || c == 'i' || c == 'o' || c == 'u'

/-- Membership in `"aeiouAEIOU"` (rule 9 of the pattern classifier). -/
def isVowelAny (c : Char) : Bool :=
  isVowelLower c || c == 'A' || c == 'E' || c == 'I' || c == 'O' || c == 'U'

/-- Model of `int(text)` for an all-digit string. -/
def natOfDigits (s : List Char) : Nat :=
  s.foldl (fun a c => 10 * a + (c.toNat - '0'.toNat)) 0

/-- Model of `text.isdigit()`: non-empty and all digits. -/
def isDigitStr (s : List Char) : Bool := !s.isEmpty && s.all isDigitA

/-- The anchor `$` in `re.match` also matches just before one trailing newline. -/
def stripNL (s : List Char) : List Char :=
  if s.getLast? == some '\n' then s.dropLast else s

/-- Model of `re.match` with the pattern of hex digits anchored at both ends. -/
def hexMatch (s : List Char) : Bool :=
  let c := stripNL s
  !c.isEmpty && c.all isHexA

/-- A run of exactly `n` hex digits. -/
def hexRun (s : List Char) (n : Nat) : Bool := (s.length == n) && s.all isHexA

/-- The canonical 8-4-4-4-12 UUID shape (case-insensitive hex). -/
def uuidCore (s : List Char) : Bool :=
  (s.length == 36) &&
  hexRun (s.take 8) 8 && (s.getD 8 ' ' == '-') &&
  hexRun ((s.drop 9).take 4) 4 && (s.getD 13 ' ' == '-') &&
  hexRun ((s.drop 14).take 4) 4 && (s.getD 18 ' ' == '-') &&
  hexRun ((s.drop 19).take 4) 4 && (s.getD 23 ' ' == '-') &&
  hexRun (s.drop 24) 12

/-- Model of `re.match(uuid_pattern, text)` where the pattern is anchored at both ends. -/
def uuidMatch (s : List Char) : Bool := uuidCore (stripNL s)

/-! ### Configuration snapshot

The YAML-loaded configuration of `config.py`, abstracted: every configured
regex is represented by the function it denotes (a Boolean `re.match` test,
a `re.finditer` span finder, or a `re.sub` substitution). -/

structure Config where
  /-- `COMMON_WORDS`: the common-word list (stored lower-cased by `load_config`). -/
  common_words : List (List Char)
  /-- `COMMON_PREFIXES`: the leading word-pattern affixes. -/
  word_pfxs : List (List Char)
  /-- `COMMON_SUFFIXES`: the trailing word-pattern affixes. -/
  word_sfxs : List (List Char)
  /-- `EXACT_MATCH_PATTERNS`: each regex as its `re.match` test. -/
  exact_match_patterns : List (List Char → Bool)
  /-- `HUMAN_READABLE_DATETIME_PATTERNS`: each regex as its case-insensitive
  `re.match` test. -/
  human_datetime_patterns : List (List Char → Bool)
  /-- `REDACTION_PATTERNS`: each regex as the list of `(start, end)` spans
  `re.finditer` yields on a line. -/
  redaction_span_finders : List (List Char → List (Nat × Nat))
  /-- `AWS_SELECTIVE_PATTERNS`: each `(pattern, replacement)` pair as the
  line transformation `re.sub(pattern, replacement, line, flags=IGNORECASE)`. -/
  aws_selective_subs : List (List Char → List Char)
  /-- `ENTROPY_SETTINGS["default_threshold"]`. -/
  default_threshold : ℚ
  /-- `ENTROPY_SETTINGS["word_pattern_bonus"]`. -/
  word_pattern_bonus : ℚ
  /-- `ENTROPY_SETTINGS["min_length"]`. -/
  min_length : Nat
  /-- `ENTROPY_SETTINGS["window_size"]`. -/
  window_size : Nat

/-! ### PatternClassifier: `is_always_redact_pattern` -/

def commonHexWords : List (List Char) :=
  ["beef", "cafe", "dead", "face", "fade", "feed", "deed", "bead", "deaf"].map String.toList

/-- The numeric exemption inside the hex branch: years, small numbers, ports. -/
def isExemptNum (v : Nat) : Bool :=
  (decide (1900 ≤ v) && decide (v ≤ 2100)) ||
  (decide (1 ≤ v) && decide (v ≤ 1000)) ||
  [8080, 8443, 3000, 5432, 3306, 5000, 9000].contains v

/-- The all-digit early-`return False` test of the hex branch. -/
def digitExempt (text : List Char) : Bool :=
  isDigitStr text && isExemptNum (natOfDigits text)

/-- The condition "6+ characters or contains both letters and digits, and not a common hex word". -/
def hexRandomCond (text : List Char) : Bool :=
  (decide (text.length ≥ 6) || (text.any isDigitA && text.any isAlphaA)) &&
  !(commonHexWords.contains (text.map toLowerA))

/-- Long numeric sequences: 8+ digits. -/
def ruleLongNum (text : List Char) : Bool :=
  decide (text.length ≥ 8) && isDigitStr text

/-- Medium numeric sequences, 6+ digits, that are likely IDs (years and small values excluded). -/
def ruleMedNum (text : List Char) : Bool :=
  decide (text.length ≥ 6) && isDigitStr text &&
  !(let v := natOfDigits text
    (decide (1900 ≤ v) && decide (v ≤ 2100)) || decide (v ≤ 100))

/-- Epoch seconds: 10 digits in the 2001-2038 range. -/
def ruleEpoch10 (text : List Char) : Bool :=
  isDigitStr text && (text.length == 10) &&
  (let v := natOfDigits text
   decide (1000000000 ≤ v) && decide (v ≤ 2147483647))

/-- Epoch milliseconds: 13 digits. -/
def ruleEpoch13 (text : List Char) : Bool :=
  isDigitStr text && (text.length == 13) &&
  (let v := natOfDigits text
   decide (1000000000000 ≤ v) && decide (v ≤ 2147483647000))

/-- Configured exact-match patterns. -/
def ruleExact (cfg : Config) (text : List Char) : Bool :=
  cfg.exact_match_patterns.any (fun p => p text)

/-- Configured human-readable datetime patterns. -/
def ruleDatetime (cfg : Config) (text : List Char) : Bool :=
  cfg.human_datetime_patterns.any (fun p => p text)

/-- Mixed alphanumeric with no vowel in `text[1:-1]`. -/
def ruleNoVowelMix (text : List Char) : Bool :=
  decide (text.length ≥ 6) && text.any isDigitA && text.any isAlphaA &&
  !((text.drop 1).dropLast.any isVowelAny)

/-- Base64-like: 8+ chars, ends with `=`, matches `^[A-Za-z0-9+/]+=*$`. -/
def ruleBase64 (text : List Char) : Bool :=
  decide (text.length ≥ 8) && (text.getLast? == some '=') &&
  (let core := (text.reverse.dropWhile (· == '=')).reverse
   !core.isEmpty && core.all isB64A)

/-- The rules evaluated after the UUID and hex branches (plain ordered `or`s). -/
def restRules (cfg : Config) (text : List Char) : Bool :=
  ruleLongNum text || ruleMedNum text || ruleEpoch10 text || ruleEpoch13 text ||
  ruleExact cfg text || ruleDatetime cfg text || ruleNoVowelMix text || ruleBase64 text

/-- Model of `is_always_redact_pattern` of `core.py`, with the control flow of the source:
the all-digit exemption inside the hex branch `return False`s immediately. -/
def is_always_redact_pattern (cfg : Config) (text : List Char) : Bool :=
  if uuidMatch text then true
  else if decide (text.length ≥ 4) && hexMatch text then
    if digitExempt text then false
    else if hexRandomCond text then true
    else restRules cfg text
  else restRules cfg text

/-! ### WordHeuristic: `is_common_word`, `has_word_pattern` -/

def is_common_word (cfg : Config) (word : List Char) : Bool :=
  cfg.common_words.contains (word.map toLowerA)

/-- Whether `s` starts with `p` (`str.startswith`). -/
def listStarts : List Char → List Char → Bool
  | [], _ => true
  | _ :: _, [] => false
  | p :: ps, c :: cs => (p == c) && listStarts ps cs

/-- Whether `s` ends with `p` (`str.endswith`). -/
def listEnds (p s : List Char) : Bool := listStarts p.reverse s.reverse

/-- The vowel-distribution test: `0.2 <= vowels/len <= 0.5` (0 for empty text),
in exact arithmetic. -/
def vowelBand (text : List Char) : Bool :=
  let v := (text.map toLowerA).countP isVowelLower
  !text.isEmpty && decide (text.length ≤ 5 * v) && decide (2 * v ≤ text.length)

/-- Model of `has_word_pattern` of `core.py`: a configured affix with the length gate
`len(text) > len(affix) + 2`, or the vowel-distribution band. -/
def has_word_pattern (cfg : Config) (text : List Char) : Bool :=
  let lower := text.map toLowerA
  cfg.word_pfxs.any (fun p => listStarts p lower && decide (text.length > p.length + 2)) ||
  cfg.word_sfxs.any (fun p => listEnds p lower && decide (text.length > p.length + 2)) ||
  vowelBand text

/-! ### EntropyScorer: `calculate_entropy`, embedded as an exact comparison -/

/-- The multiset of character multiplicities of the case-folded string
(the values of `Counter(text.lower())`). -/
def lowerCounts (s : List Char) : List Nat :=
  let ls := s.map toLowerA
  ls.dedup.map (fun c => ls.count c)

/-- The quantity `(prod over the multiplicities c of c^c)^q`, computed as `prod c^(q*c)`. -/
def prodCCpow (s : List Char) (q : Nat) : Nat :=
  ((lowerCounts s).map (fun c => c ^ (q * c))).prod

/-- Decides `calculate_entropy(s) >= p / q` (for `q > 0`) exactly:
`H(s) = (1/n) * log2 (n^n / prod c^c)` for `n = len(s) > 0`, so
`H >= p/q  <->  (prod c^c)^q * 2^(p*n) <= (n^n)^q`, with the power of two on
the other side when `p < 0`; the empty string has entropy `0`. -/
def entropyGeP (s : List Char) (p : Int) (q : Nat) : Bool :=
  let n := s.length
  if n = 0 then decide (p ≤ 0)
  else if 0 ≤ p then decide (prodCCpow s q * 2 ^ (p.toNat * n) ≤ n ^ (q * n))
  else decide (prodCCpow s q ≤ n ^ (q * n) * 2 ^ (p.natAbs * n))

/-! ### SegmentClassifier: `is_high_entropy_segment` -/

def hasMixedCase (s : List Char) : Bool := s.any isUpperA && s.any isLowerA

def hasDigitAndAlpha (s : List Char) : Bool := s.any isDigitA && s.any isAlphaA

/-- The test `digit_ratio > 0.6`, that is `digits/len > 3/5`, exactly. -/
def highDigitShare (s : List Char) : Bool := decide (3 * s.length < 5 * s.countP isDigitA)

/-- The entropy boost of the mixed-pattern heuristics, in tenths:
`+0.3` for mixed case, `+0.4` for digits and letters, `+0.2` for a high
digit ratio. -/
def adjTenths (s : List Char) : Nat :=
  (if hasMixedCase s then 3 else 0) + (if hasDigitAndAlpha s then 4 else 0) +
  (if highDigitShare s then 2 else 0)

/-- Numerator of `t + b - adj/10` over the common denominator
`t.den * b.den * 10`.  (`adjusted_entropy >= effective_threshold` is the same
comparison as `entropy >= threshold + bonus - adjustment`.) -/
def effNum (t b : ℚ) (adj : Nat) : Int :=
  (t.num * (b.den : Int) + b.num * (t.den : Int)) * 10 - (adj : Int) * ((t.den : Int) * (b.den : Int))

/-- Denominator of `t + b - adj/10`. -/
def effDen (t b : ℚ) : Nat := t.den * b.den * 10

/-- Model of `is_high_entropy_segment` of `core.py`, with the threshold and minimum
length already resolved to values (the callers resolve `None` from the
configuration; see the redaction functions).  The comparison
`adjusted_entropy >= effective_threshold` is embedded as the equivalent
exact comparison `entropy >= t + bonus - adjustment` via `entropyGeP`.
(For an empty segment with `m = 0` the Python code would divide by zero in
`digit_ratio`; the redaction pipelines only classify non-empty tokens, and
the model is total there, with `digit_ratio > 0.6` read as false.) -/
def is_high_entropy_segment (cfg : Config) (segment : List Char) (t : ℚ) (m : Nat) : Bool :=
  if segment.length < m then false
  else if is_always_redact_pattern cfg segment then true
  else if is_common_word cfg segment then false
  else
    let b : ℚ := if has_word_pattern cfg segment then cfg.word_pattern_bonus else Rat.mk' 0 1 (by decide) (by decide)
    entropyGeP segment (effNum t b (adjTenths segment)) (effDen t b)

/-! ### Tokenizer -/

/-- Model of the findall tokenization over alphanumeric runs, fuelled so that it is
structurally recursive (every step consumes at least one character, so
`len(s)+1` units of fuel always suffice): maximal alphanumeric runs; every
other character is its own token. -/
def tokenizeFindAux : Nat → List Char → List (List Char)
  | 0, _ => []
  | _, [] => []
  | fuel + 1, c :: rest =>
    if isAlnumA c then
      (c :: rest.takeWhile isAlnumA) :: tokenizeFindAux fuel (rest.dropWhile isAlnumA)
    else [c] :: tokenizeFindAux fuel rest

def tokenizeFind (s : List Char) : List (List Char) := tokenizeFindAux (s.length + 1) s

/-- The tail part of `re.split(r"([^a-zA-Z0-9]+)", text)`: alternating
separator run / alphanumeric run, starting at a separator; fuelled as above
(each step consumes at least one character). -/
def splitSepAux : Nat → List Char → List (List Char)
  | 0, _ => []
  | _, [] => []
  | fuel + 1, s =>
    let r := s.dropWhile (fun x => !isAlnumA x)
    s.takeWhile (fun x => !isAlnumA x) :: r.takeWhile isAlnumA ::
      splitSepAux fuel (r.dropWhile isAlnumA)

/-- Model of the separator-capturing split: the first (possibly empty)
alphanumeric part followed by alternating separator/content parts. -/
def splitSep (s : List Char) : List (List Char) :=
  s.takeWhile isAlnumA :: splitSepAux (s.length + 1) (s.dropWhile isAlnumA)

/-! ### Condensation and star counting -/

/-- Asterisk condensation: collapse every maximal run of `*` to one `*`.
The flag records whether the previous character was a `*`. -/
def collapseStarsGo : Bool → List Char → List Char
  | _, [] => []
  | prev, c :: rest =>
    if c == '*' then
      if prev then collapseStarsGo true rest else '*' :: collapseStarsGo true rest
    else c :: collapseStarsGo false rest

def collapseStars (s : List Char) : List Char := collapseStarsGo false s

/-- The number of `*` characters of a string. -/
def countStars (s : List Char) : Nat := s.count '*'

/-! ### TokenRedactor: `redact_high_entropy_tokens` -/

/-- One multi-token replacement: `result[:start] + "*"*(end-start) + result[end:]`. -/
def applySpan (s : List Char) (sp : Nat × Nat) : List Char :=
  s.take sp.1 ++ List.replicate (sp.2 - sp.1) '*' ++ s.drop sp.2

/-- Sorting the recorded spans by start offset in reverse order. -/
def insertSpanDesc (x : Nat × Nat) : List (Nat × Nat) → List (Nat × Nat)
  | [] => [x]
  | y :: ys => if y.1 ≤ x.1 then x :: y :: ys else y :: insertSpanDesc x ys

def sortSpansDesc (l : List (Nat × Nat)) : List (Nat × Nat) := l.foldr insertSpanDesc []

/-- The per-part step of the token strategy: a non-empty all-alphanumeric
part (`re.match(r"^[a-zA-Z0-9]+$", part)`) classified high-entropy becomes a
`*` run of its length; every other part is kept. -/
def tokenClassify (cfg : Config) (t : ℚ) (m : Nat) (part : List Char) : List Char :=
  if (!part.isEmpty && part.all isAlnumA) && is_high_entropy_segment cfg part t m
  then List.replicate part.length '*' else part

/-- Model of `redact_high_entropy_tokens` of `core.py`: resolve defaults, record the
multi-token pattern spans on the original text, apply the selective hostname
substitutions, apply the recorded spans (descending starts), then classify
and redact whole tokens, and optionally condense. -/
def redact_high_entropy_tokens (cfg : Config) (text : List Char)
    (entropy_threshold : Option ℚ := none) (min_length : Option Nat := none)
    (condense_asterisks : Option Bool := none) : List Char :=
  let t := entropy_threshold.getD cfg.default_threshold
  let m := min_length.getD cfg.min_length
  let condense := condense_asterisks.getD false
  let spans := (cfg.redaction_span_finders.map (fun f => f text)).flatten
  let text1 := cfg.aws_selective_subs.foldl (fun s f => f s) text
  let text2 := (sortSpansDesc spans).foldl applySpan text1
  let out := ((splitSep text2).map (tokenClassify cfg t m)).flatten
  if condense then collapseStars out else out

/-- Model of `redact_sensitive_data`, which delegates to the token strategy. -/
def redact_sensitive_data (cfg : Config) (text : List Char)
    (entropy_threshold : Option ℚ := none) (min_length : Option Nat := none)
    (condense_asterisks : Option Bool := none) : List Char :=
  redact_high_entropy_tokens cfg text entropy_threshold min_length condense_asterisks

/-! ### SlidingWindowRedactor: `redact_high_entropy_strings` -/

/-- The slice `token[a:b]`. -/
def slice (s : List Char) (a b : Nat) : List Char := (s.drop a).take (b - a)

/-- Backward region growth: while `start > 0` and `token[start-1:e]` is
high-entropy, decrement `start`. -/
def extendBack (cfg : Config) (t : ℚ) (m : Nat) (token : List Char) (e : Nat) :
    Nat → Nat
  | 0 => 0
  | s + 1 =>
    if is_high_entropy_segment cfg (slice token s e) t m then
      extendBack cfg t m token e s
    else s + 1

/-- Forward region growth: while `e < len(token)` and `token[start:e+1]` is
high-entropy, increment `e`; fuelled (`e` can grow at most up to
`len(token)`, so `len(token)` units of fuel always suffice). -/
def extendFwdAux (cfg : Config) (t : ℚ) (m : Nat) (token : List Char) (start : Nat) :
    Nat → Nat → Nat
  | e, 0 => e
  | e, fuel + 1 =>
    if e < token.length then
      if is_high_entropy_segment cfg (slice token start (e + 1)) t m then
        extendFwdAux cfg t m token start (e + 1) fuel
      else e
    else e

def extendFwd (cfg : Config) (t : ℚ) (m : Nat) (token : List Char) (start e : Nat) :
    Nat :=
  extendFwdAux cfg t m token start e token.length

/-- Overwrite positions `[a, b)` with `*` (`redacted_chars[j] = "*"`). -/
def markStars : List Char → Nat → Nat → List Char
  | [], _, _ => []
  | c :: cs, a, b =>
    (if a = 0 && 0 < b then '*' else c) :: markStars cs (a - 1) (b - 1)

/-- The scan loop of the sliding-window strategy over one token:
at index `i` test `token[i:i+w]`; on a hit grow the region backward and
forward, star it, and jump to its end; otherwise advance by one.  `fuel`
bounds the iteration count (for `w ≥ 1` the loop makes at most
`len(token)+1` steps, so the fuel used below is never exhausted). -/
def slideLoop (cfg : Config) (t : ℚ) (m w : Nat) (token : List Char) :
    List Char → Nat → Nat → List Char
  | chars, _, 0 => chars
  | chars, i, fuel + 1 =>
    if i + w ≤ token.length then
      if is_high_entropy_segment cfg (slice token i (i + w)) t m then
        let start := extendBack cfg t m token (i + w) i
        let e := extendFwd cfg t m token start (i + w)
        slideLoop cfg t m w token (markStars chars start e) e fuel
      else slideLoop cfg t m w token chars (i + 1) fuel
    else chars

/-- The per-token step of the sliding-window strategy. -/
def stringsTokenStep (cfg : Config) (t : ℚ) (m w : Nat) (token : List Char) :
    List Char :=
  if !(!token.isEmpty && token.all isAlnumA) then token
  else if token.length < m then token
  else slideLoop cfg t m w token token 0 (token.length + 1)

/-- Model of `redact_high_entropy_strings` of `core.py`: resolve defaults; texts
shorter than `min_length` are returned unchanged; otherwise each token is
processed by the sliding-window scan, and the result is reassembled and
optionally condensed. -/
def redact_high_entropy_strings (cfg : Config) (text : List Char)
    (entropy_threshold : Option ℚ := none) (min_length : Option Nat := none)
    (window_size : Option Nat := none) (condense_asterisks : Option Bool := none) :
    List Char :=
  let t := entropy_threshold.getD cfg.default_threshold
  let m := min_length.getD cfg.min_length
  let w := window_size.getD cfg.window_size
  let condense := condense_asterisks.getD false
  if text.length < m then text
  else
    let out := ((tokenizeFind text).map (stringsTokenStep cfg t m w)).flatten
    if condense then collapseStars out else out

/-! ### Observational predicates used by the claims -/

/-- Holds when `out` has the same length as `inp` and each of its characters is either
the corresponding character of `inp` or a `*` replacing an alphanumeric
character of `inp`.  This packages the spec's invariant "non-alphanumeric
separators always pass through unchanged; every output character is either
original or a `*`" for length-preserving redaction. -/
def origOrStar : List Char → List Char → Bool
  | [], [] => true
  | i :: is, o :: os => (o == i || (isAlnumA i && o == '*')) && origOrStar is os
  | _, _ => false

/-- No two adjacent `*` characters. -/
def noDoubleStar : List Char → Bool
  | [] => true
  | [_] => true
  | c :: d :: rest => !(c == '*' && d == '*') && noDoubleStar (d :: rest)

/-- The product `prod c^c` over the case-folded character multiplicities (so that
`prodCCpow s q = (prodCC s)^q`). -/
def prodCC (s : List Char) : Nat := ((lowerCounts s).map (fun c => c ^ c)).prod

/-! ### Concrete rational constants and configurations used by the
concrete-input theorems (constructed with `Rat.mk'` so that they evaluate
inside `decide`) -/

/-- The value `2.5`, the default entropy threshold named by the spec. -/
def thr52 : ℚ := Rat.mk' 5 2 (by decide) (by decide)

/-- The value `0.5`, the default word-pattern bonus named by the spec. -/
def bon12 : ℚ := Rat.mk' 1 2 (by decide) (by decide)

def q0 : ℚ := Rat.mk' 0 1 (by decide) (by decide)

def q10 : ℚ := Rat.mk' 10 1 (by decide) (by decide)

def q100 : ℚ := Rat.mk' 100 1 (by decide) (by decide)

def q999 : ℚ := Rat.mk' 999 1 (by decide) (by decide)

/-- The value `0.9`. -/
def q9d10 : ℚ := Rat.mk' 9 10 (by decide) (by decide)

/-- The value `1.55`. -/
def q31d20 : ℚ := Rat.mk' 31 20 (by decide) (by decide)

/-- The configuration the concrete examples of the spec assume: the default
entropy settings (threshold `2.5`, word-pattern bonus `0.5`, `min_length 4`,
`window_size 6`) and no configured word or pattern entries that match the
inputs involved. -/
def cfgDefault : Config :=
  ⟨[], [], [], [], [], [], [], thr52, bon12, 4, 6⟩

/-- A configuration whose common-word list contains `ggxyh` and whose
word-pattern bonus is `0` (used by the sliding-window monotonicity
counterexample). -/
def cfgSlide : Config :=
  ⟨["ggxyh".toList], [], [], [], [], [], [], thr52, q0, 4, 6⟩

/-- A configuration with one multi-token redaction pattern: the action of
`re.finditer(r"a b", line)`, which on the line `"a b"` yields the single
span `(0, 3)`. -/
def cfgSpanEx : Config :=
  ⟨[], [], [], [], [], [fun s => if s = "a b".toList then [(0, 3)] else []], [],
   thr52, bon12, 4, 6⟩

/-- A configuration with one selective hostname substitution: the action of
`re.sub(r"ec2-\d+-\d+-\d+-\d+", "ec2-*", line)`, which rewrites the line
`"ec2-1-2-3-4"` to `"ec2-*"` (and is recorded here only at that input). -/
def cfgSubEx : Config :=
  ⟨[], [], [], [], [], [],
   [fun s => if s = "ec2-1-2-3-4".toList then "ec2-*".toList else s],
   thr52, bon12, 4, 6⟩

/-- A configuration whose word-pattern affix lists consist of the single
leading affix `"pre"` (the three characters p, r, e). -/
def cfgAffix : Config :=
  ⟨[], [['p', 'r', 'e']], [], [], [], [], [], thr52, bon12, 4, 6⟩

/-! ## Proof layer -/

/-! ### Round-trip of the tokenizers -/

theorem length_dropWhileLe (p : Char → Bool) (l : List Char) :
    (l.dropWhile p).length ≤ l.length := by
  induction l with
  | nil => simp [List.dropWhile]
  | cons a l ih =>
    simp only [List.dropWhile]
    split
    · exact Nat.le_succ_of_le ih
    · exact Nat.le_refl _

theorem tokenizeFindAux_flatten (fuel : Nat) (s : List Char) (h : s.length < fuel) :
    (tokenizeFindAux fuel s).flatten = s := by
  induction fuel generalizing s with
  | zero => exact absurd h (Nat.not_lt_zero _)
  | succ fuel ih =>
    cases s with
    | nil => rfl
    | cons c rest =>
      have hr : rest.length < fuel := Nat.lt_of_succ_lt_succ h
      by_cases hc : isAlnumA c
      · have hdrop : (rest.dropWhile isAlnumA).length < fuel :=
          Nat.lt_of_le_of_lt (length_dropWhileLe _ _) hr
        simp only [tokenizeFindAux, hc, if_pos, List.flatten_cons, ih _ hdrop]
        simp [List.takeWhile_append_dropWhile]
      · simp [tokenizeFindAux, hc, List.flatten_cons, ih _ hr]

theorem tokenizeFind_flatten (s : List Char) : (tokenizeFind s).flatten = s :=
  tokenizeFindAux_flatten _ _ (Nat.lt_succ_self _)

theorem splitSepAux_flatten (fuel : Nat) (s : List Char) (h : s.length < fuel) :
    (splitSepAux fuel s).flatten = s := by
  induction fuel generalizing s with
  | zero => exact absurd h (Nat.not_lt_zero _)
  | succ fuel ih =>
    cases s with
    | nil => rfl
    | cons c rest =>
      have hrec :
          ((((c :: rest).dropWhile (fun x => !isAlnumA x)).dropWhile isAlnumA)).length < fuel := by
        by_cases hc : isAlnumA c
        · have h1 : ((c :: rest).dropWhile (fun x => !isAlnumA x)) = c :: rest := by
            simp [List.dropWhile, hc]
          rw [h1]
          have h2 : ((c :: rest).dropWhile isAlnumA) = rest.dropWhile isAlnumA := by
            simp [List.dropWhile, hc]
          rw [h2]
          exact Nat.lt_of_le_of_lt (length_dropWhileLe _ _) (Nat.lt_of_succ_lt_succ h)
        · have h1 : ((c :: rest).dropWhile (fun x => !isAlnumA x))
              = rest.dropWhile (fun x => !isAlnumA x) := by
            simp [List.dropWhile, hc]
          rw [h1]
          exact Nat.lt_of_le_of_lt
            (Nat.le_trans (length_dropWhileLe _ _) (length_dropWhileLe _ _))
            (Nat.lt_of_succ_lt_succ h)
      simp only [splitSepAux, List.flatten_cons, ih _ hrec]
      rw [List.takeWhile_append_dropWhile, List.takeWhile_append_dropWhile]

theorem splitSep_flatten (s : List Char) : (splitSep s).flatten = s := by
  have hlen : (s.dropWhile isAlnumA).length < s.length + 1 :=
    Nat.lt_succ_of_le (length_dropWhileLe _ _)
  simp only [splitSep, List.flatten_cons, splitSepAux_flatten _ _ hlen,
    List.takeWhile_append_dropWhile]

/-! ### The pointwise original-or-star invariant -/

theorem origOrStar_refl (s : List Char) : origOrStar s s = true := by
  induction s with
  | nil => rfl
  | cons c cs ih => simp [origOrStar, ih]

theorem origOrStar_length {a b : List Char} (h : origOrStar a b = true) :
    b.length = a.length := by
  induction a generalizing b with
  | nil => cases b with
    | nil => rfl
    | cons _ _ => simp [origOrStar] at h
  | cons i is ih =>
    cases b with
    | nil => simp [origOrStar] at h
    | cons o os =>
      simp only [origOrStar, Bool.and_eq_true] at h
      simp [ih h.2]

theorem origOrStar_append {a b c d : List Char} (h1 : origOrStar a b = true)
    (h2 : origOrStar c d = true) : origOrStar (a ++ c) (b ++ d) = true := by
  induction a generalizing b with
  | nil =>
    cases b with
    | nil => simpa using h2
    | cons _ _ => simp [origOrStar] at h1
  | cons i is ih =>
    cases b with
    | nil => simp [origOrStar] at h1
    | cons o os =>
      simp only [origOrStar, Bool.and_eq_true] at h1
      simpa [origOrStar, h1.1] using ih h1.2

theorem origOrStar_replicate (p : List Char) (hp : p.all isAlnumA = true) :
    origOrStar p (List.replicate p.length '*') = true := by
  induction p with
  | nil => rfl
  | cons c cs ih =>
    simp only [List.all_cons, Bool.and_eq_true] at hp
    simp [List.replicate_succ, origOrStar, hp.1, ih hp.2]

theorem origOrStar_flatten_map (f : List Char → List Char) (l : List (List Char))
    (h : ∀ x ∈ l, origOrStar x (f x) = true) :
    origOrStar l.flatten (l.map f).flatten = true := by
  induction l with
  | nil => rfl
  | cons x xs ih =>
    simp only [List.map_cons, List.flatten_cons]
    exact origOrStar_append (h x (List.mem_cons_self x xs))
      (ih fun y hy => h y (List.mem_cons_of_mem _ hy))

theorem origOrStar_markStars (tok : List Char) (htok : tok.all isAlnumA = true) :
    ∀ (chars : List Char) (a b : Nat), origOrStar tok chars = true →
      origOrStar tok (markStars chars a b) = true := by
  induction tok with
  | nil =>
    intro chars a b h
    cases chars with
    | nil => rfl
    | cons _ _ => simp [origOrStar] at h
  | cons i is ih =>
    intro chars a b h
    cases chars with
    | nil => simp [origOrStar] at h
    | cons c cs =>
      simp only [List.all_cons, Bool.and_eq_true] at htok
      simp only [origOrStar, Bool.and_eq_true] at h
      simp only [markStars, origOrStar, Bool.and_eq_true]
      refine ⟨?_, ih htok.2 cs (a - 1) (b - 1) h.2⟩
      split
      · simp [htok.1]
      · exact h.1

theorem origOrStar_slideLoop (cfg : Config) (t : ℚ) (m w : Nat) (tok : List Char)
    (htok : tok.all isAlnumA = true) :
    ∀ (fuel : Nat) (chars : List Char) (i : Nat), origOrStar tok chars = true →
      origOrStar tok (slideLoop cfg t m w tok chars i fuel) = true := by
  intro fuel
  induction fuel with
  | zero => intro chars i h; exact h
  | succ fuel ih =>
    intro chars i h
    simp only [slideLoop]
    split
    · split
      · exact ih _ _ (origOrStar_markStars tok htok chars _ _ h)
      · exact ih _ _ h
    · exact h

theorem origOrStar_stringsTokenStep (cfg : Config) (t : ℚ) (m w : Nat)
    (tok : List Char) : origOrStar tok (stringsTokenStep cfg t m w tok) = true := by
  unfold stringsTokenStep
  split
  · exact origOrStar_refl tok
  · split
    · exact origOrStar_refl tok
    · rename_i hguard _
      have hand : (!tok.isEmpty && tok.all isAlnumA) = true := by
        cases hx : (!tok.isEmpty && tok.all isAlnumA) with
        | false => exact absurd (by simp [hx]) hguard
        | true => rfl
      simp only [Bool.and_eq_true] at hand
      exact origOrStar_slideLoop cfg t m w tok hand.2 _ tok 0 (origOrStar_refl tok)

theorem origOrStar_tokenClassify (cfg : Config) (t : ℚ) (m : Nat) (p : List Char) :
    origOrStar p (tokenClassify cfg t m p) = true := by
  unfold tokenClassify
  split
  · rename_i hcond
    simp only [Bool.and_eq_true] at hcond
    exact origOrStar_replicate p hcond.1.2
  · exact origOrStar_refl p

theorem tokenClassify_cases (cfg : Config) (t : ℚ) (m : Nat) (p : List Char) :
    tokenClassify cfg t m p = p ∨ tokenClassify cfg t m p = List.replicate p.length '*' := by
  unfold tokenClassify
  split
  · exact Or.inr rfl
  · exact Or.inl rfl

/-- With no multi-token patterns and no selective substitutions, the token
strategy with `condense=False` is exactly "classify every part of the
separator-preserving split". -/
theorem redact_tokens_no_patterns (cfg : Config) (text : List Char) (topt : Option ℚ)
    (mopt : Option Nat) (hf : cfg.redaction_span_finders = [])
    (hs : cfg.aws_selective_subs = []) :
    redact_high_entropy_tokens cfg text topt mopt (some false) =
      ((splitSep text).map
        (tokenClassify cfg (topt.getD cfg.default_threshold) (mopt.getD cfg.min_length))).flatten := by
  have h1 : ((cfg.redaction_span_finders.map (fun f => f text)).flatten : List (Nat × Nat)) = [] := by
    rw [hf]; rfl
  have h2 : (cfg.aws_selective_subs.foldl (fun s f => f s) text) = text := by
    rw [hs]; rfl
  show ((splitSep ((sortSpansDesc
      ((cfg.redaction_span_finders.map (fun f => f text)).flatten)).foldl applySpan
      (cfg.aws_selective_subs.foldl (fun s f => f s) text))).map
      (tokenClassify cfg (topt.getD cfg.default_threshold) (mopt.getD cfg.min_length))).flatten = _
  rw [h1, h2]; rfl

/-- The sliding-window strategy with `condense=False` only ever replaces
alphanumeric characters by `*`, in place. -/
theorem strings_pointwise (cfg : Config) (text : List Char) (topt : Option ℚ)
    (mopt wopt : Option Nat) :
    origOrStar text (redact_high_entropy_strings cfg text topt mopt wopt (some false)) = true := by
  show origOrStar text
      (if text.length < mopt.getD cfg.min_length then text
       else ((tokenizeFind text).map
         (stringsTokenStep cfg (topt.getD cfg.default_threshold) (mopt.getD cfg.min_length)
           (wopt.getD cfg.window_size))).flatten) = true
  split
  · exact origOrStar_refl text
  · nth_rewrite 1 [← tokenizeFind_flatten text]
    exact origOrStar_flatten_map _ _ (fun x _ => origOrStar_stringsTokenStep cfg _ _ _ x)

/-- The token strategy with `condense=False` and no configured multi-token or
selective patterns only ever replaces alphanumeric characters by `*`, in place. -/
theorem tokens_pointwise (cfg : Config) (text : List Char) (topt : Option ℚ)
    (mopt : Option Nat) (hf : cfg.redaction_span_finders = [])
    (hs : cfg.aws_selective_subs = []) :
    origOrStar text (redact_high_entropy_tokens cfg text topt mopt (some false)) = true := by
  rw [redact_tokens_no_patterns cfg text topt mopt hf hs]
  nth_rewrite 1 [← splitSep_flatten text]
  exact origOrStar_flatten_map _ _ (fun x _ => origOrStar_tokenClassify cfg _ _ x)

/-! ### Claim C1 -/

/-- C1, counterexample to the claim as stated.  Two instances falsify it:
with `condense=True` the sliding-window redactor maps `"a ** b"` (where no
token is redacted) to `"a * b"`, so the output is shorter than the input and
the separator `*` at position 3 is not preserved; and with `condense=False`
but a configured multi-token pattern matching `"a b"`, the token redactor
maps `"a b"` to `"***"`, turning the separator (space) into `*`.  In both
cases `origOrStar` — the claim's "separators unchanged and every output
character original-or-`*`" — is violated. -/
theorem C1_counterexample :
    origOrStar "a ** b".toList
        (redact_high_entropy_strings cfgDefault "a ** b".toList none none none (some true))
      = false ∧
    origOrStar "a b".toList
        (redact_high_entropy_tokens cfgSpanEx "a b".toList none none (some false)) = false :=
  ⟨by decide, by decide⟩

/-- C1 (amended): with `condense=False`, `redact_high_entropy_strings` (for
every configuration and parameters) and `redact_high_entropy_tokens` (for
every configuration whose multi-token and selective-hostname pattern lists
are empty) preserve length, leave every non-alphanumeric separator character
unchanged, and produce outputs each character of which is either the
corresponding input character or a `*` replacing an alphanumeric input
character. -/
theorem C1_redaction_pointwise :
    (∀ (cfg : Config) (text : List Char) (topt : Option ℚ) (mopt wopt : Option Nat),
      origOrStar text (redact_high_entropy_strings cfg text topt mopt wopt (some false)) = true) ∧
    (∀ (cfg : Config) (text : List Char) (topt : Option ℚ) (mopt : Option Nat),
      cfg.redaction_span_finders = [] → cfg.aws_selective_subs = [] →
      origOrStar text (redact_high_entropy_tokens cfg text topt mopt (some false)) = true) :=
  ⟨strings_pointwise, tokens_pointwise⟩

/-- C1, witness: the amended claim applied at concrete inputs. -/
theorem C1_witness :
    origOrStar "a ** b".toList
        (redact_high_entropy_strings cfgDefault "a ** b".toList none none none (some false))
      = true ∧
    origOrStar "a b".toList
        (redact_high_entropy_tokens cfgDefault "a b".toList none none (some false)) = true :=
  ⟨C1_redaction_pointwise.1 cfgDefault _ none none none,
   C1_redaction_pointwise.2 cfgDefault _ none none rfl rfl⟩

/-! ### Claim C3 -/

/-- C3, counterexample to the claim as stated (which quantifies over every
loaded configuration): with a configured multi-token pattern matching
`"a b"`, the output `"***"` changes the separator at position 1 although
`condense=False`; with a configured selective-hostname substitution, the
output of `"ec2-1-2-3-4"` is `"ec2-*"`, whose length differs from the
input's. -/
theorem C3_counterexample :
    (redact_high_entropy_tokens cfgSpanEx "a b".toList none none (some false) = "***".toList ∧
      "a b".toList.getD 1 '?' = ' ' ∧
      (redact_high_entropy_tokens cfgSpanEx "a b".toList none none (some false)).getD 1 '?'
        = '*') ∧
    (redact_high_entropy_tokens cfgSubEx "ec2-1-2-3-4".toList (some q100) none
        (some false)).length ≠ "ec2-1-2-3-4".toList.length :=
  ⟨⟨by decide, by decide, by decide⟩, by decide⟩

/-- C3 (amended): for every configuration whose multi-token and
selective-hostname pattern lists are empty, `redact_high_entropy_tokens`
with `condense=False` has output length equal to input length, equals the
part-by-part classification of the separator-preserving split (so every
non-redacted part — separator or token — is byte-identical to the input,
and every redacted token is a `*` run of its length), and satisfies the
original-or-star pointwise invariant. -/
theorem C3_token_frame :
    ∀ (cfg : Config) (text : List Char) (topt : Option ℚ) (mopt : Option Nat),
      cfg.redaction_span_finders = [] → cfg.aws_selective_subs = [] →
      (redact_high_entropy_tokens cfg text topt mopt (some false)).length = text.length ∧
      redact_high_entropy_tokens cfg text topt mopt (some false) =
        ((splitSep text).map
          (tokenClassify cfg (topt.getD cfg.default_threshold) (mopt.getD cfg.min_length))).flatten ∧
      (∀ p ∈ splitSep text,
        tokenClassify cfg (topt.getD cfg.default_threshold) (mopt.getD cfg.min_length) p = p ∨
        tokenClassify cfg (topt.getD cfg.default_threshold) (mopt.getD cfg.min_length) p
          = List.replicate p.length '*') ∧
      origOrStar text (redact_high_entropy_tokens cfg text topt mopt (some false)) = true := by
  intro cfg text topt mopt hf hs
  refine ⟨origOrStar_length (tokens_pointwise cfg text topt mopt hf hs),
    redact_tokens_no_patterns cfg text topt mopt hf hs,
    fun p _ => tokenClassify_cases cfg _ _ p,
    tokens_pointwise cfg text topt mopt hf hs⟩

/-- C3, witness: the amended claim applied at a concrete input. -/
theorem C3_witness :
    (redact_high_entropy_tokens cfgDefault "model-scheduler-667689996-jd4g7".toList none none
      (some false)).length = "model-scheduler-667689996-jd4g7".toList.length :=
  (C3_token_frame cfgDefault _ none none rfl rfl).1

/-! ### Claim C10: condensation -/

theorem redact_strings_false_eq (cfg : Config) (text : List Char) (topt : Option ℚ)
    (mopt wopt : Option Nat) :
    redact_high_entropy_strings cfg text topt mopt wopt (some false) =
      if text.length < mopt.getD cfg.min_length then text
      else ((tokenizeFind text).map (stringsTokenStep cfg (topt.getD cfg.default_threshold)
        (mopt.getD cfg.min_length) (wopt.getD cfg.window_size))).flatten := rfl

theorem redact_strings_true_eq (cfg : Config) (text : List Char) (topt : Option ℚ)
    (mopt wopt : Option Nat) :
    redact_high_entropy_strings cfg text topt mopt wopt (some true) =
      if text.length < mopt.getD cfg.min_length then text
      else collapseStars (((tokenizeFind text).map
        (stringsTokenStep cfg (topt.getD cfg.default_threshold)
          (mopt.getD cfg.min_length) (wopt.getD cfg.window_size))).flatten) := rfl

/-- The head of a collapse that already saw a `*` is never another `*`. -/
theorem collapseGo_true_head : ∀ s : List Char, (collapseStarsGo true s).head? ≠ some '*' := by
  intro s
  induction s with
  | nil => simp [collapseStarsGo]
  | cons c rest ih =>
    by_cases hc : (c == '*') = true
    · simpa [collapseStarsGo, hc] using ih
    · have : c ≠ '*' := by simpa using hc
      simp [collapseStarsGo, hc, List.head?]
      exact this

theorem noDoubleStar_cons (c : Char) (l : List Char)
    (hhead : l.head? = some '*' → c ≠ '*') (hl : noDoubleStar l = true) :
    noDoubleStar (c :: l) = true := by
  cases l with
  | nil => rfl
  | cons d ds =>
    simp only [noDoubleStar, Bool.and_eq_true, Bool.not_eq_true']
    refine ⟨?_, hl⟩
    by_cases hd : (d == '*') = true
    · have hc : c ≠ '*' := hhead (by simp [List.head?]; simpa using hd)
      simp [hc]
    · simp [hd]

theorem noDoubleStar_collapseGo : ∀ (s : List Char) (prev : Bool),
    noDoubleStar (collapseStarsGo prev s) = true := by
  intro s
  induction s with
  | nil => intro prev; rfl
  | cons c rest ih =>
    intro prev
    by_cases hc : (c == '*') = true
    · cases prev with
      | true => simpa [collapseStarsGo, hc] using ih true
      | false =>
        simp only [collapseStarsGo, hc, if_pos, if_neg]
        exact noDoubleStar_cons '*' _ (fun h => absurd h (collapseGo_true_head rest)) (ih true)
    · simp only [collapseStarsGo, hc]
      have hcne : c ≠ '*' := by simpa using hc
      exact noDoubleStar_cons c _ (fun _ => hcne) (ih false)

theorem collapseGo_filter : ∀ (s : List Char) (prev : Bool),
    (collapseStarsGo prev s).filter (fun c => !(c == '*'))
      = s.filter (fun c => !(c == '*')) := by
  intro s
  induction s with
  | nil => intro prev; rfl
  | cons c rest ih =>
    intro prev
    by_cases hc : (c == '*') = true
    · cases prev with
      | true => simp [collapseStarsGo, hc, List.filter, ih true]
      | false => simp [collapseStarsGo, hc, List.filter, ih true]
    · simp [collapseStarsGo, hc, List.filter, ih false]

/-- C10: when `condense` is on, the result is exactly the `condense=False`
result with every maximal run of `*` collapsed to a single `*` — including
runs already present in the input.  The collapse really is run collapse: it
leaves no two adjacent `*` and does not change the subsequence of non-`*`
characters.  In particular `redact_high_entropy_tokens("a ** b", condense=True)`
returns `"a * b"` although no token was redacted. -/
theorem C10_condense_collapses_all_runs :
    (∀ (cfg : Config) (text : List Char) (topt : Option ℚ) (mopt : Option Nat),
      redact_high_entropy_tokens cfg text topt mopt (some true) =
        collapseStars (redact_high_entropy_tokens cfg text topt mopt (some false))) ∧
    (∀ (cfg : Config) (text : List Char) (topt : Option ℚ) (mopt wopt : Option Nat),
      redact_high_entropy_strings cfg text topt mopt wopt (some true) =
        if text.length < mopt.getD cfg.min_length then text
        else collapseStars (redact_high_entropy_strings cfg text topt mopt wopt (some false))) ∧
    redact_high_entropy_tokens cfgDefault "a ** b".toList none none (some true)
      = "a * b".toList ∧
    (∀ s : List Char, noDoubleStar (collapseStars s) = true) ∧
    (∀ s : List Char,
      (collapseStars s).filter (fun c => !(c == '*')) = s.filter (fun c => !(c == '*'))) := by
  refine ⟨fun cfg text topt mopt => rfl, ?_, by decide,
    fun s => noDoubleStar_collapseGo s false, fun s => collapseGo_filter s false⟩
  intro cfg text topt mopt wopt
  rw [redact_strings_true_eq, redact_strings_false_eq]
  split
  · rfl
  · rfl

/-! ### Claim C2: the pattern classifier as a formula -/

theorem isDigitA_ne_nl {c : Char} (h : isDigitA c = true) : (c == '\n') = false := by
  cases hc : (c == '\n') with
  | false => rfl
  | true =>
    have : c = '\n' := by simpa using hc
    subst this
    exact absurd h (by decide)

theorem digit_stripNL {s : List Char} (h : isDigitStr s = true) : stripNL s = s := by
  unfold stripNL
  unfold isDigitStr at h
  simp only [Bool.and_eq_true] at h
  cases hl : s.getLast? with
  | none => simp
  | some a =>
    have ha : a ∈ s := List.mem_of_mem_getLast? hl
    have hd : isDigitA a = true := List.all_eq_true.mp h.2 a ha
    simp [isDigitA_ne_nl hd]

theorem digit_hexMatch {s : List Char} (h : isDigitStr s = true) : hexMatch s = true := by
  have hstrip := digit_stripNL h
  unfold hexMatch
  rw [hstrip]
  unfold isDigitStr at h
  simp only [Bool.and_eq_true] at h
  simp only [Bool.and_eq_true]
  refine ⟨h.1, List.all_eq_true.mpr fun c hc => ?_⟩
  have := List.all_eq_true.mp h.2 c hc
  simp [isHexA, this]

theorem digit_not_uuid {s : List Char} (h : isDigitStr s = true) : uuidMatch s = false := by
  unfold uuidMatch
  rw [digit_stripNL h]
  cases hu : uuidCore s with
  | false => rfl
  | true =>
    exfalso
    unfold uuidCore at hu
    simp only [Bool.and_eq_true, beq_iff_eq] at hu
    have hlen : s.length = 36 := hu.1.1.1.1.1.1.1.1.1
    have hdash : s.getD 8 ' ' = '-' := hu.1.1.1.1.1.1.1.2
    have h8 : (8 : Nat) < s.length := by omega
    rw [List.getD_eq_getElem s ' ' h8] at hdash
    have hmem : s[8] ∈ s := List.getElem_mem h8
    unfold isDigitStr at h
    simp only [Bool.and_eq_true] at h
    have hd := List.all_eq_true.mp h.2 _ hmem
    rw [hdash] at hd
    exact absurd hd (by decide)

theorem hexwords_not_long {x : List Char} (hx : 5 ≤ x.length) :
    commonHexWords.contains x = false := by
  cases hc : commonHexWords.contains x with
  | false => rfl
  | true =>
    exfalso
    have hmem : x ∈ commonHexWords := List.elem_iff.mp hc
    have h4 : ∀ w ∈ commonHexWords, w.length = 4 := by decide
    have := h4 x hmem
    omega

/-- C2 core: the classifier equals "UUID, or — unless the all-digit
numeric exemption applies (which `return False`s) — the hex-randomness rule
or the plain disjunction of the remaining rules". -/
theorem alwaysRedact_eq (cfg : Config) (text : List Char) :
    is_always_redact_pattern cfg text =
      (uuidMatch text ||
        (!(decide (text.length ≥ 4) && digitExempt text) &&
          ((decide (text.length ≥ 4) && hexMatch text && hexRandomCond text) ||
            restRules cfg text))) := by
  unfold is_always_redact_pattern
  cases hu : uuidMatch text with
  | true => simp
  | false =>
    simp only [Bool.false_or, if_neg (by simp : ¬(false = true))]
    cases hlh : (decide (text.length ≥ 4) && hexMatch text) with
    | true =>
      simp only [if_pos rfl]
      simp only [Bool.and_eq_true] at hlh
      cases hde : digitExempt text with
      | true => simp [hlh.1, hde]
      | false =>
        cases hhr : hexRandomCond text with
        | true => simp [hlh.1, hlh.2, hde, hhr]
        | false => simp [hlh.1, hlh.2, hde, hhr]
    | false =>
      simp only [if_neg (by simp : ¬(false = true))]
      have hld : (decide (text.length ≥ 4) && digitExempt text) = false := by
        cases hde : digitExempt text with
        | false => simp
        | true =>
          have hdig : isDigitStr text = true := by
            unfold digitExempt at hde
            exact (Bool.and_eq_true _ _ ▸ hde).1
          have hhex := digit_hexMatch hdig
          cases hl4 : decide (text.length ≥ 4) with
          | false => simp
          | true =>
            exfalso
            rw [hl4, hhex] at hlh
            exact Bool.true_eq_false ▸ hlh
      rw [hld]
      simp

/-- C2 (amended): `is_always_redact_pattern` is the UUID rule, or — whenever
the all-digit numeric exemption (length ≥ 4, value in
[1,1000] ∪ [1900,2100] ∪ {8080,8443,3000,5432,3306,5000,9000}) does not
apply — the disjunction of the hex-randomness rule and rules 3-10 evaluated
independently; the exemption short-circuits the classifier to `False`,
overriding rules 3-10 and every configured pattern.  In particular a purely
numeric string of length ≥ 8 is always-redact exactly when its value is not
exempt. -/
theorem C2_classifier_formula :
    (∀ (cfg : Config) (text : List Char),
      is_always_redact_pattern cfg text =
        (uuidMatch text ||
          (!(decide (text.length ≥ 4) && digitExempt text) &&
            ((decide (text.length ≥ 4) && hexMatch text && hexRandomCond text) ||
              restRules cfg text)))) ∧
    (∀ (cfg : Config) (s : List Char), 8 ≤ s.length → isDigitStr s = true →
      is_always_redact_pattern cfg s = !isExemptNum (natOfDigits s)) := by
  refine ⟨alwaysRedact_eq, fun cfg s hlen hdig => ?_⟩
  rw [alwaysRedact_eq, digit_not_uuid hdig, Bool.false_or]
  have hl4 : decide (s.length ≥ 4) = true := decide_eq_true (by omega)
  have hhex := digit_hexMatch hdig
  have hde : digitExempt s = isExemptNum (natOfDigits s) := by
    unfold digitExempt
    rw [hdig, Bool.true_and]
  rw [hl4, hde, hhex, Bool.true_and, Bool.true_and]
  cases hex : isExemptNum (natOfDigits s) with
  | true => rfl
  | false =>
    have hhr : hexRandomCond s = true := by
      unfold hexRandomCond
      have h6 : decide (s.length ≥ 6) = true := decide_eq_true (by omega)
      have hw : commonHexWords.contains (s.map toLowerA) = false :=
        hexwords_not_long (by simpa using (by omega : 5 ≤ s.length))
      rw [h6, hw]
      rfl
    rw [hhr]
    rfl

/-- C2, counterexample to the claim as stated: `"00000100"` is purely
numeric with length 8, so rule 3 of the ten-rule disjunction fires, yet the
classifier returns `False` (the value 100 falls under the all-digit
exemption, which returns early and overrides rule 3). -/
theorem C2_counterexample :
    is_always_redact_pattern cfgDefault "00000100".toList = false ∧
    "00000100".toList.length = 8 ∧ isDigitStr "00000100".toList = true :=
  ⟨by decide, by decide, by decide⟩

/-- C2, witness: the amended characterization applied at concrete inputs. -/
theorem C2_witness :
    is_always_redact_pattern cfgDefault "667689996".toList
      = !isExemptNum (natOfDigits "667689996".toList) :=
  C2_classifier_formula.2 cfgDefault _ (by decide) (by decide)

/-! ### Claim C8: years are exempt for every configuration -/

/-- C8: for every loaded configuration, a 4-digit numeric string whose value
lies in [1900, 2100] is never an always-redact pattern: the all-digit
exemption returns `False` before any configured pattern is consulted. -/
theorem C8_years_not_redacted :
    ∀ (cfg : Config) (s : List Char), s.length = 4 → s.all isDigitA = true →
      1900 ≤ natOfDigits s → natOfDigits s ≤ 2100 →
      is_always_redact_pattern cfg s = false := by
  intro cfg s hlen hdig h1 h2
  have hne : s.isEmpty = false := by
    cases s with
    | nil => simp at hlen
    | cons _ _ => rfl
  have hds : isDigitStr s = true := by
    unfold isDigitStr
    rw [hdig, hne]
    rfl
  rw [alwaysRedact_eq, digit_not_uuid hds]
  have hde : digitExempt s = true := by
    unfold digitExempt isExemptNum
    rw [hds, decide_eq_true h1, decide_eq_true h2]
    rfl
  rw [hde]
  have hl4 : decide (s.length ≥ 4) = true := decide_eq_true (by omega)
  rw [hl4]
  rfl

/-- C8, witness: `"2024"` is never classified always-redact. -/
theorem C8_witness : is_always_redact_pattern cfgDefault "2024".toList = false :=
  C8_years_not_redacted cfgDefault _ (by decide) (by decide) (by decide) (by decide)

/-! ### Claim C5: canonical UUIDs are always high entropy -/

theorem isHexA_ne_nl {c : Char} (h : isHexA c = true) : (c == '\n') = false := by
  cases hc : (c == '\n') with
  | false => rfl
  | true =>
    have : c = '\n' := by simpa using hc
    subst this
    exact absurd h (by decide)

/-- C5: for every configuration and every threshold, a string of the
canonical 8-4-4-4-12 hex UUID shape (either letter case) is classified
high-entropy by `is_high_entropy_segment` with the default `min_length` of 4:
the UUID rule fires before any entropy computation. -/
theorem C5_uuid_always_flagged :
    ∀ (cfg : Config) (t : ℚ) (s : List Char), uuidCore s = true →
      is_high_entropy_segment cfg s t 4 = true := by
  intro cfg t s hu
  have hu' := hu
  unfold uuidCore at hu'
  simp only [Bool.and_eq_true, beq_iff_eq] at hu'
  have hlen : s.length = 36 := hu'.1.1.1.1.1.1.1.1.1
  have hlast : hexRun (s.drop 24) 12 = true := by
    have := hu'.2
    unfold hexRun
    simp only [Bool.and_eq_true, beq_iff_eq]
    unfold hexRun at this
    simp only [Bool.and_eq_true, beq_iff_eq] at this
    exact this
  have hstrip : stripNL s = s := by
    unfold stripNL
    rw [List.getLast?_eq_getElem? s]
    have hidx : s.length - 1 = 35 := by omega
    rw [hidx]
    have h35 : (35 : Nat) < s.length := by omega
    rw [List.getElem?_eq_getElem h35]
    have hdropNth : (s.drop 24)[11]? = s[35]? := by
      rw [List.getElem?_drop]
    have h11 : (11 : Nat) < (s.drop 24).length := by
      rw [List.length_drop]
      omega
    rw [List.getElem?_eq_getElem h35, List.getElem?_eq_getElem h11] at hdropNth
    have hhex : isHexA ((s.drop 24)[11]) = true := by
      unfold hexRun at hlast
      simp only [Bool.and_eq_true] at hlast
      exact List.all_eq_true.mp hlast.2 _ (List.getElem_mem h11)
    rw [Option.some.injEq] at hdropNth
    rw [← hdropNth]
    simp only [beq_iff_eq, Option.some.injEq]
    rw [if_neg]
    intro heq
    rw [heq] at hhex
    exact absurd hhex (by decide)
  have hmatch : uuidMatch s = true := by
    unfold uuidMatch
    rw [hstrip]
    exact hu
  have halways : is_always_redact_pattern cfg s = true := by
    unfold is_always_redact_pattern
    rw [if_pos hmatch]
  unfold is_high_entropy_segment
  rw [if_neg (by omega : ¬s.length < 4), if_pos halways]

/-- C5, witness: the spec's example UUID, at an arbitrary large threshold. -/
theorem C5_witness :
    is_high_entropy_segment cfgDefault "550e8400-e29b-41d4-a716-446655440000".toList q999 4
      = true :=
  C5_uuid_always_flagged cfgDefault q999 _ (by decide)

/-! ### Claim C7: the concrete pod-name example -/

/-- C7: with the default settings (threshold 2.5, word-pattern bonus 0.5,
minimum length 4) and no configured pattern touching these tokens,
`redact_high_entropy_tokens` keeps "model" and "scheduler" and replaces
"667689996" and "jd4g7" by `*` runs of equal length. -/
theorem C7_pod_name_example :
    redact_high_entropy_tokens cfgDefault "model-scheduler-667689996-jd4g7".toList none none none
      = "model-scheduler-*********-*****".toList := by decide

/-! ### Claim C9: tokens shorter than the window are never touched -/

theorem slice_window_length (tok : List Char) (i w : Nat) (h : i + w ≤ tok.length) :
    (slice tok i (i + w)).length = w := by
  unfold slice
  rw [List.length_take, List.length_drop]
  omega

theorem slideLoop_small_window (cfg : Config) (t : ℚ) (m w : Nat) (tok : List Char)
    (hw : w < m) : ∀ (fuel : Nat) (chars : List Char) (i : Nat),
      slideLoop cfg t m w tok chars i fuel = chars := by
  intro fuel
  induction fuel with
  | zero => intro chars i; rfl
  | succ fuel ih =>
    intro chars i
    simp only [slideLoop]
    split
    · rename_i hle
      have hflag : is_high_entropy_segment cfg (slice tok i (i + w)) t m = false := by
        unfold is_high_entropy_segment
        rw [if_pos]
        rw [slice_window_length tok i w hle]
        omega
      rw [hflag]
      simp only [Bool.false_eq_true, if_false]
      exact ih chars (i + 1)
    · rfl

/-- C9: in the sliding-window strategy, an alphanumeric token shorter than
`window_size` is emitted unchanged (whatever its length relative to
`min_length` and whatever the classifier would say about it as a whole);
consequently, whenever `min_length > window_size` the whole input is
returned unchanged. -/
theorem C9_short_tokens_untouched :
    (∀ (cfg : Config) (t : ℚ) (m w : Nat) (tok : List Char), tok.length < w →
      stringsTokenStep cfg t m w tok = tok) ∧
    (∀ (cfg : Config) (text : List Char) (t : ℚ) (m w : Nat), w < m →
      redact_high_entropy_strings cfg text (some t) (some m) (some w) (some false) = text) := by
  constructor
  · intro cfg t m w tok hlt
    unfold stringsTokenStep
    split
    · rfl
    · split
      · rfl
      · show slideLoop cfg t m w tok tok 0 (tok.length + 1) = tok
        simp only [slideLoop]
        rw [if_neg (by omega : ¬(0 + w ≤ tok.length))]
  · intro cfg text t m w hwm
    show (if text.length < m then text
      else ((tokenizeFind text).map (stringsTokenStep cfg t m w)).flatten) = text
    split
    · rfl
    · have hstep : ∀ tok ∈ tokenizeFind text, stringsTokenStep cfg t m w tok = tok := by
        intro tok _
        unfold stringsTokenStep
        split
        · rfl
        · split
          · rfl
          · exact slideLoop_small_window cfg t m w tok hwm _ tok 0
      rw [List.map_congr_left hstep]
      simpa using tokenizeFind_flatten text

/-- C9, witness: a length-4 alphanumeric token with the default window 6 is
kept; with `min_length 7 > window_size 6` a full line passes unchanged. -/
theorem C9_witness :
    stringsTokenStep cfgDefault thr52 4 6 "z2k9".toList = "z2k9".toList ∧
    redact_high_entropy_strings cfgDefault "api-key-a1b2c3d4e5f6g7h8".toList (some thr52)
      (some 7) (some 6) (some false) = "api-key-a1b2c3d4e5f6g7h8".toList :=
  ⟨C9_short_tokens_untouched.1 cfgDefault thr52 4 6 _ (by decide),
   C9_short_tokens_untouched.2 cfgDefault _ thr52 7 6 (by decide)⟩

/-! ### Claim C6: the word-pattern heuristic -/

/-- The vowel-band test, written with the exact rational ratio of the code. -/
theorem vowelBand_iff (text : List Char) :
    vowelBand text = true ↔
      (text ≠ [] ∧
        (1 : ℚ)/5 ≤ ((text.map toLowerA).countP isVowelLower : ℚ) / (text.length : ℚ) ∧
        ((text.map toLowerA).countP isVowelLower : ℚ) / (text.length : ℚ) ≤ 1/2) := by
  unfold vowelBand
  simp only [Bool.and_eq_true, decide_eq_true_eq, Bool.not_eq_true']
  constructor
  · rintro ⟨⟨hne, hlo⟩, hhi⟩
    have hne' : text ≠ [] := by
      intro h
      subst h
      simp at hne
    have hn : (0 : ℚ) < (text.length : ℚ) := by
      have h0 : 0 < text.length := List.length_pos.mpr hne'
      exact_mod_cast h0
    have hloQ : ((text.length : ℚ))
        ≤ 5 * (((text.map toLowerA).countP isVowelLower : ℚ)) := by exact_mod_cast hlo
    have hhiQ : 2 * (((text.map toLowerA).countP isVowelLower : ℚ))
        ≤ ((text.length : ℚ)) := by exact_mod_cast hhi
    refine ⟨hne', ?_, ?_⟩
    · rw [div_le_div_iff₀ (by norm_num : (0:ℚ) < 5) hn]
      linarith
    · rw [div_le_div_iff₀ hn (by norm_num : (0:ℚ) < 2)]
      linarith
  · rintro ⟨hne, hlo, hhi⟩
    have hn : (0 : ℚ) < (text.length : ℚ) := by
      have h0 : 0 < text.length := List.length_pos.mpr hne
      exact_mod_cast h0
    rw [div_le_div_iff₀ (by norm_num : (0:ℚ) < 5) hn] at hlo
    rw [div_le_div_iff₀ hn (by norm_num : (0:ℚ) < 2)] at hhi
    have hne2 : text.isEmpty = false := by
      cases text with
      | nil => exact absurd rfl hne
      | cons _ _ => rfl
    refine ⟨⟨hne2, ?_⟩, ?_⟩
    · exact_mod_cast (show ((text.length : ℚ))
        ≤ 5 * (((text.map toLowerA).countP isVowelLower : ℚ)) by linarith)
    · exact_mod_cast (show 2 * (((text.map toLowerA).countP isVowelLower : ℚ))
        ≤ ((text.length : ℚ)) by linarith)

/-- C6 (amended): `has_word_pattern(text)` is true exactly when the
lower-cased text starts with a configured leading affix `p` with
`len(text) > len(p) + 2` — the code compares the total length, not the
remaining length —, or symmetrically ends with a configured trailing affix,
or the vowel ratio lies in [0.2, 0.5]. -/
theorem C6_word_pattern_characterization :
    ∀ (cfg : Config) (text : List Char),
      has_word_pattern cfg text = true ↔
        ((∃ p ∈ cfg.word_pfxs,
            listStarts p (text.map toLowerA) = true ∧ text.length > p.length + 2) ∨
         (∃ p ∈ cfg.word_sfxs,
            listEnds p (text.map toLowerA) = true ∧ text.length > p.length + 2) ∨
         (text ≠ [] ∧
           (1 : ℚ)/5 ≤ ((text.map toLowerA).countP isVowelLower : ℚ) / (text.length : ℚ) ∧
           ((text.map toLowerA).countP isVowelLower : ℚ) / (text.length : ℚ) ≤ 1/2)) := by
  intro cfg text
  unfold has_word_pattern
  rw [← vowelBand_iff]
  simp only [Bool.or_eq_true, List.any_eq_true, Bool.and_eq_true, decide_eq_true_eq]
  rw [or_assoc]

/-- C6, counterexample to the claim as stated: with the single configured
leading affix `"pre"`, the text `"prexyz"` makes `has_word_pattern` true
(the code requires total length `6 > 3 + 2`), although the claim's condition
fails (the remaining length is `6 - 3 = 3`, not greater than `3 + 2`), no
trailing affix is configured, and the vowel ratio 1/6 is outside the band. -/
theorem C6_counterexample :
    has_word_pattern cfgAffix "prexyz".toList = true ∧
    ¬("prexyz".toList.length - "pre".toList.length > "pre".toList.length + 2) ∧
    cfgAffix.word_sfxs = [] ∧
    vowelBand "prexyz".toList = false :=
  ⟨by decide, by decide, rfl, by decide⟩

/-! ### Claim C4: threshold monotonicity

The exact-arithmetic entropy comparison `entropyGeP` is antitone in the
rational bound `p/q`; the proof works directly with the natural-number
comparison, lifted to `ℚ` where the power of two has an integer exponent. -/

theorem rat_le_cross {a b : ℚ} (h : a ≤ b) :
    a.num * (b.den : ℤ) ≤ b.num * (a.den : ℤ) := by
  have ha : (0:ℚ) < (a.den : ℚ) := by exact_mod_cast a.den_pos
  have hb : (0:ℚ) < (b.den : ℚ) := by exact_mod_cast b.den_pos
  rw [← Rat.num_div_den a, ← Rat.num_div_den b, div_le_div_iff₀ ha hb] at h
  exact_mod_cast h

theorem rat_le_of_cross (a b : ℚ) (h : a.num * (b.den : ℤ) ≤ b.num * (a.den : ℤ)) :
    a ≤ b := by
  have ha : (0:ℚ) < (a.den : ℚ) := by exact_mod_cast a.den_pos
  have hb : (0:ℚ) < (b.den : ℚ) := by exact_mod_cast b.den_pos
  rw [← Rat.num_div_den a, ← Rat.num_div_den b, div_le_div_iff₀ ha hb]
  exact_mod_cast h

theorem lowerCounts_pos (s : List Char) : ∀ c ∈ lowerCounts s, 0 < c := by
  intro c hc
  unfold lowerCounts at hc
  simp only [List.mem_map] at hc
  obtain ⟨ch, hch, rfl⟩ := hc
  exact List.count_pos_iff.mpr (List.mem_dedup.mp hch)

theorem one_le_prodCC (s : List Char) : 1 ≤ prodCC s := by
  unfold prodCC
  apply List.one_le_prod_of_one_le
  intro x hx
  simp only [List.mem_map] at hx
  obtain ⟨c, hc, rfl⟩ := hx
  exact Nat.one_le_pow _ _ (lowerCounts_pos s c hc)

theorem map_pow_prod (l : List Nat) (q : Nat) :
    (l.map (fun c => c ^ (q * c))).prod = ((l.map (fun c => c ^ c)).prod) ^ q := by
  induction l with
  | nil => simp
  | cons a l ih =>
    rw [List.map_cons, List.map_cons, List.prod_cons, List.prod_cons, ih, mul_pow,
      Nat.mul_comm q a, pow_mul]

theorem prodCCpow_eq (s : List Char) (q : Nat) : prodCCpow s q = (prodCC s) ^ q :=
  map_pow_prod _ q

theorem zpow_pow_mul (a : ℚ) (k : ℤ) (b : ℕ) : (a ^ k) ^ b = a ^ (k * b) := by
  rw [← zpow_natCast (a ^ k) b, ← zpow_mul]

/-- The Boolean `entropyGeP s p q`, over a non-empty string, is the rational
inequality `(prod c^c)^q * 2^(p*n) <= (n^n)^q`. -/
theorem entropyGeP_iff (s : List Char) (p : ℤ) (q : ℕ) (hs : ¬s.length = 0) :
    entropyGeP s p q = true ↔
      ((prodCC s : ℚ)) ^ q * (2:ℚ) ^ (p * (s.length : ℤ))
        ≤ (((s.length : ℚ)) ^ s.length) ^ q := by
  unfold entropyGeP
  rw [if_neg hs]
  by_cases hp : 0 ≤ p
  · rw [if_pos hp]
    simp only [decide_eq_true_eq]
    rw [prodCCpow_eq]
    have hzp : (2:ℚ) ^ (p * (s.length : ℤ)) = 2 ^ (p.toNat * s.length) := by
      rw [← zpow_natCast (2:ℚ) (p.toNat * s.length)]
      congr 1
      push_cast [Int.toNat_of_nonneg hp]
      ring
    have hpowmul : (((s.length : ℚ)) ^ s.length) ^ q = ((s.length : ℚ)) ^ (q * s.length) := by
      rw [← pow_mul, Nat.mul_comm]
    rw [hzp, hpowmul]
    constructor
    · intro hnat
      exact_mod_cast hnat
    · intro hq'
      exact_mod_cast hq'
  · rw [if_neg hp]
    simp only [decide_eq_true_eq]
    rw [prodCCpow_eq]
    have hk : p * (s.length : ℤ) = -(((p.natAbs * s.length : ℕ)) : ℤ) := by
      push_cast
      rw [abs_of_nonpos (by omega : p ≤ 0)]
      ring
    have h2pos : (0:ℚ) < 2 ^ (p.natAbs * s.length) := by positivity
    have hpowmul : (((s.length : ℚ)) ^ s.length) ^ q = ((s.length : ℚ)) ^ (q * s.length) := by
      rw [← pow_mul, Nat.mul_comm]
    rw [hk, zpow_neg, zpow_natCast, mul_inv_le_iff₀ h2pos, hpowmul]
    constructor
    · intro hnat
      exact_mod_cast hnat
    · intro hq'
      exact_mod_cast hq'

theorem entropyGeP_anti (s : List Char) (p1 p2 : ℤ) (q1 q2 : ℕ)
    (hq1 : 0 < q1) (hq2 : 0 < q2) (hcross : p1 * (q2 : ℤ) ≤ p2 * (q1 : ℤ))
    (h : entropyGeP s p2 q2 = true) : entropyGeP s p1 q1 = true := by
  by_cases hs : s.length = 0
  · unfold entropyGeP at h ⊢
    rw [if_pos hs] at h ⊢
    have hp2 : p2 ≤ 0 := of_decide_eq_true h
    apply decide_eq_true
    have hq1' : (0:ℤ) < (q1 : ℤ) := by exact_mod_cast hq1
    have hq2' : (0:ℤ) < (q2 : ℤ) := by exact_mod_cast hq2
    nlinarith [hcross, hp2, hq1', hq2']
  · rw [entropyGeP_iff s p2 q2 hs] at h
    rw [entropyGeP_iff s p1 q1 hs]
    set n : ℕ := s.length with hn
    set x : ℚ := ((prodCC s : ℚ)) with hx
    set a : ℚ := ((n : ℚ)) ^ n with ha
    have hxpos : 0 < x := by
      rw [hx]
      exact_mod_cast Nat.lt_of_lt_of_le Nat.zero_lt_one (one_le_prodCC s)
    have hapos : 0 < a := by
      rw [ha]
      have : (0:ℚ) < (n : ℚ) := by
        exact_mod_cast Nat.pos_of_ne_zero hs
      positivity
    clear_value n x a
    -- raise the hypothesis to the q1-th power
    have h1 : (x ^ q2 * (2:ℚ) ^ (p2 * (n:ℤ))) ^ q1 ≤ (a ^ q2) ^ q1 :=
      pow_le_pow_left₀ (by positivity) h q1
    have h1' : x ^ (q2 * q1) * (2:ℚ) ^ (p2 * (n:ℤ) * q1) ≤ a ^ (q2 * q1) := by
      calc x ^ (q2 * q1) * (2:ℚ) ^ (p2 * (n:ℤ) * q1)
          = (x ^ q2 * (2:ℚ) ^ (p2 * (n:ℤ))) ^ q1 := by
            rw [mul_pow, ← pow_mul, zpow_pow_mul]
        _ ≤ (a ^ q2) ^ q1 := h1
        _ = a ^ (q2 * q1) := by rw [← pow_mul]
    -- compare the powers of two
    have hexp : p1 * (n:ℤ) * q2 ≤ p2 * (n:ℤ) * q1 := by
      have hn0 : (0:ℤ) ≤ (n:ℤ) := by positivity
      have := mul_le_mul_of_nonneg_right hcross hn0
      ring_nf at this ⊢
      linarith
    have h2 : (2:ℚ) ^ (p1 * (n:ℤ) * q2) ≤ (2:ℚ) ^ (p2 * (n:ℤ) * q1) :=
      (zpow_le_zpow_iff_right₀ (by norm_num : (1:ℚ) < 2)).mpr hexp
    have h3 : x ^ (q2 * q1) * (2:ℚ) ^ (p1 * (n:ℤ) * q2) ≤ a ^ (q2 * q1) := by
      calc x ^ (q2 * q1) * (2:ℚ) ^ (p1 * (n:ℤ) * q2)
          ≤ x ^ (q2 * q1) * (2:ℚ) ^ (p2 * (n:ℤ) * q1) := by
            exact mul_le_mul_of_nonneg_left h2 (by positivity)
        _ ≤ a ^ (q2 * q1) := h1'
    -- cancel the q2-th power
    by_contra hlt'
    have hlt : a ^ q1 < x ^ q1 * (2:ℚ) ^ (p1 * (n:ℤ)) := lt_of_not_le fun hle => hlt' hle
    have h4 : (a ^ q1) ^ q2 < (x ^ q1 * (2:ℚ) ^ (p1 * (n:ℤ))) ^ q2 :=
      pow_lt_pow_left₀ hlt (by positivity) (Nat.pos_iff_ne_zero.mp hq2)
    have h4' : a ^ (q2 * q1) < x ^ (q2 * q1) * (2:ℚ) ^ (p1 * (n:ℤ) * q2) := by
      calc a ^ (q2 * q1) = (a ^ q1) ^ q2 := by rw [← pow_mul, Nat.mul_comm q2 q1]
        _ < (x ^ q1 * (2:ℚ) ^ (p1 * (n:ℤ))) ^ q2 := h4
        _ = x ^ (q2 * q1) * (2:ℚ) ^ (p1 * (n:ℤ) * q2) := by
            rw [mul_pow, ← pow_mul, zpow_pow_mul, Nat.mul_comm q1 q2]
    exact absurd h3 (not_le_of_lt h4')

/-- Lowering the threshold moves the effective rational bound
`t + bonus - adjustment` down, in cross-multiplied form. -/
theorem eff_cross {t1 t2 : ℚ} (b : ℚ) (adj : Nat) (h : t1 ≤ t2) :
    effNum t1 b adj * ((effDen t2 b : ℕ) : ℤ) ≤ effNum t2 b adj * ((effDen t1 b : ℕ) : ℤ) := by
  have hc : t1.num * (t2.den : ℤ) ≤ t2.num * (t1.den : ℤ) := rat_le_cross h
  have key := mul_le_mul_of_nonneg_left hc
    (show (0:ℤ) ≤ 100 * ((b.den : ℤ) * (b.den : ℤ)) by positivity)
  unfold effNum effDen
  push_cast
  ring_nf at key ⊢
  linarith

theorem effDen_pos (t b : ℚ) : 0 < effDen t b := by
  unfold effDen
  exact Nat.mul_pos (Nat.mul_pos t.den_pos b.den_pos) (by norm_num)

/-- Antitonicity of `is_high_entropy_segment` in the threshold: anything flagged
at a higher threshold is flagged at a lower one. -/
theorem is_high_entropy_anti (cfg : Config) (s : List Char) (m : Nat) {t1 t2 : ℚ}
    (h : t1 ≤ t2) (hf : is_high_entropy_segment cfg s t2 m = true) :
    is_high_entropy_segment cfg s t1 m = true := by
  unfold is_high_entropy_segment at hf ⊢
  split at hf
  · exact absurd hf (by simp)
  · split at hf
    · rename_i h1 h2
      rw [if_neg h1, if_pos h2]
    · split at hf
      · exact absurd hf (by simp)
      · rename_i h1 h2 h3
        rw [if_neg h1, if_neg h2, if_neg h3]
        exact entropyGeP_anti s _ _ _ _ (effDen_pos t1 _) (effDen_pos t2 _)
          (eff_cross _ _ h) hf

theorem countStars_replicate (n : Nat) : countStars (List.replicate n '*') = n := by
  unfold countStars
  exact List.count_replicate_self '*' n

theorem countStars_le_length (s : List Char) : countStars s ≤ s.length :=
  List.count_le_length '*' s

/-- Per part, the star count of the classification never decreases when the
threshold drops. -/
theorem countStars_tokenClassify_anti (cfg : Config) (m : Nat) {t1 t2 : ℚ}
    (h : t1 ≤ t2) (p : List Char) :
    countStars (tokenClassify cfg t2 m p) ≤ countStars (tokenClassify cfg t1 m p) := by
  cases hal : (!p.isEmpty && p.all isAlnumA) with
  | false => simp [tokenClassify, hal]
  | true =>
    cases hf2 : is_high_entropy_segment cfg p t2 m with
    | true =>
      have hf1 := is_high_entropy_anti cfg p m h hf2
      simp [tokenClassify, hal, hf1, hf2]
    | false =>
      cases hf1 : is_high_entropy_segment cfg p t1 m with
      | false => simp [tokenClassify, hal, hf1, hf2]
      | true =>
        simp only [tokenClassify, hal, hf1, hf2, Bool.and_true, Bool.and_false,
          Bool.true_and, if_true, if_false]
        rw [countStars_replicate]
        exact countStars_le_length p

theorem countStars_flatten (l : List (List Char)) :
    countStars l.flatten = (l.map countStars).sum := by
  unfold countStars
  rw [List.count_flatten]

/-- C4 (amended): for the token strategy with `condense=False`, lowering the
entropy threshold never decreases the number of `*` characters of the
output, for every input, configuration and minimum length.  (The claim as
stated — over every remaining parameter setting and both strategies — is
refuted by the counterexample theorem recorded for this claim.) -/
theorem C4_tokens_threshold_monotone :
    ∀ (cfg : Config) (text : List Char) (mopt : Option Nat) (t1 t2 : ℚ), t1 ≤ t2 →
      countStars (redact_high_entropy_tokens cfg text (some t2) mopt (some false)) ≤
      countStars (redact_high_entropy_tokens cfg text (some t1) mopt (some false)) := by
  intro cfg text mopt t1 t2 h
  have hrw : ∀ t : ℚ, redact_high_entropy_tokens cfg text (some t) mopt (some false) =
      ((splitSep ((sortSpansDesc
        ((cfg.redaction_span_finders.map (fun f => f text)).flatten)).foldl
        applySpan (cfg.aws_selective_subs.foldl (fun s f => f s) text))).map
        (tokenClassify cfg t (mopt.getD cfg.min_length))).flatten := fun t => rfl
  rw [hrw t1, hrw t2, countStars_flatten, countStars_flatten, List.map_map, List.map_map]
  apply List.sum_le_sum
  intro p _
  exact countStars_tokenClassify_anti cfg _ h p

/-- C4, counterexample to the claim as stated: two instances.  With
`condense=True` (a "remaining parameter"), redacting more tokens can merge
previously separate `*` runs: on `"abc*de*fg"` the token strategy yields 1
star at threshold 0 but 2 stars at threshold 10.  And for the
sliding-window strategy even with `condense=False`: on `"ggxyhhhhhh"` (with
`ggxyh` a configured common word, bonus 0, window 3, minimum length 3) the
scan redacts 4 characters at threshold 0.9 but 7 characters at threshold
1.55, because at the lower threshold the region grows from index 0, is
stopped by the common-word test, and the scan then skips ahead. -/
theorem C4_counterexample :
    q0 ≤ q10 ∧
    countStars (redact_high_entropy_tokens cfgDefault "abc*de*fg".toList (some q0) (some 2)
        (some true)) <
      countStars (redact_high_entropy_tokens cfgDefault "abc*de*fg".toList (some q10) (some 2)
        (some true)) ∧
    q9d10 ≤ q31d20 ∧
    countStars (redact_high_entropy_strings cfgSlide "ggxyhhhhhh".toList (some q9d10) (some 3)
        (some 3) (some false)) <
      countStars (redact_high_entropy_strings cfgSlide "ggxyhhhhhh".toList (some q31d20) (some 3)
        (some 3) (some false)) :=
  ⟨rat_le_of_cross _ _ (by decide), by decide,
   rat_le_of_cross _ _ (by decide), by decide⟩

/-- C4, witness: the amended monotonicity applied at a concrete input and
a concrete threshold pair. -/
theorem C4_witness :
    countStars (redact_high_entropy_tokens cfgDefault
        "model-scheduler-667689996-jd4g7".toList (some q10) none (some false)) ≤
    countStars (redact_high_entropy_tokens cfgDefault
        "model-scheduler-667689996-jd4g7".toList (some q0) none (some false)) :=
  C4_tokens_threshold_monotone cfgDefault _ none q0 q10 (rat_le_of_cross _ _ (by decide))

end Entrophier
